import Mathlib

/-!
# Verification of the MCPlex session-and-dispatch layer and tool suite

Shallow embedding of the MCP example server: the HTTP dispatcher and its
session table (`src/unnamed/part_000`), the registered tool suite
(`src/server/tools.js`, `src/server/tools-basic.js`) and the Twitter
external-call wrapper (`src/unnamed/part_002`).
-/

namespace MCP

/-! ## Session-and-dispatch layer (src/unnamed/part_000)

The server keeps a mutable object `transports = {}` mapping session ids to
`StreamableHTTPServerTransport` objects.  We model a transport/session as a
record carrying its session id and a `closed` flag, the `transports` object
as the list of currently-active session ids, and keep the list of every
session ever created so that closed sessions remain observable. -/

/-- One transport/session of part_000.  `closed` records whether the
underlying transport has been closed. -/
structure Session where
  sid : Nat
  closed : Bool
deriving DecidableEq

/-- Dispatcher state.  `table` is the `transports` object of part_000
line 21 (the set of active session ids); `sessions` records every
transport ever created; `nextSid` models `randomUUID()` as a fresh-id
counter (Modelled from the spec: `randomUUID` is node library code; spec
section 3 requires ids generated only at Session creation and never
reused within a process lifetime). -/
structure ServerState where
  table : List Nat
  sessions : List Session
  nextSid : Nat
deriving DecidableEq

def initialState : ServerState := { table := [], sessions := [], nextSid := 0 }

/-- The JSON-RPC error envelope built at part_000 lines 45-52. -/
structure ErrorEnvelope where
  jsonrpc : String
  code : Int
  message : String
  idNull : Bool
deriving DecidableEq

def noSessionEnvelope : ErrorEnvelope :=
  { jsonrpc := "2.0"
    code := -32000
    message := "Bad Request: No valid session ID provided"
    idNull := true }

/-- Observable outcome of one HTTP request against the dispatcher. -/
inductive Response where
  | forwarded (sid : Nat)
  | handshakeOk (sid : Nat)
  | badRequestJson (env : ErrorEnvelope)
  | badRequestText (body : String)
deriving DecidableEq

/-- The handshake path of `app.post` (part_000 lines 28-43): a fresh
transport is created whose `onsessioninitialized` callback stores it in
`transports` under the freshly generated id, and whose `onclose` handler
deletes that entry.  Modelled from the spec: the transport internals are
SDK code absent from src; spec section 4.2 makes create + register +
return-the-id a single atomic step. -/
def handshake (s : ServerState) : ServerState × Response :=
  ({ table := s.nextSid :: s.table
     sessions := s.sessions ++ [{ sid := s.nextSid, closed := false }]
     nextSid := s.nextSid + 1 },
   .handshakeOk s.nextSid)

/-- The `transport.onclose` handler (part_000 lines 37-41): mark the
transport closed and delete its entry from `transports`. -/
def closeSession (s : ServerState) (sid : Nat) : ServerState :=
  { s with
    table := s.table.erase sid
    sessions := s.sessions.map fun t => if t.sid = sid then { t with closed := true } else t }

/-- `app.post('/mcp')` (part_000 lines 23-57).  `isInitReq` is the value
of `isInitializeRequest(req.body)`. -/
def postMcp (s : ServerState) (sessionId : Option Nat) (isInitReq : Bool) :
    ServerState × Response :=
  match sessionId with
  | some sid =>
    if sid ∈ s.table then (s, .forwarded sid)
    else (s, .badRequestJson noSessionEnvelope)
  | none =>
    if isInitReq then handshake s
    else (s, .badRequestJson noSessionEnvelope)

/-- `handleSessionRequest` (part_000 lines 59-68), serving GET and DELETE.
A request with a valid session id is forwarded to the transport; a
forwarded DELETE terminates the session (Modelled from the spec:
`transport.handleRequest` is SDK code absent from src; spec section 4.2
says explicit termination removes the Session, funnelling through the
single `onclose` removal path). -/
def sessionRequest (s : ServerState) (sessionId : Option Nat) (isDelete : Bool) :
    ServerState × Response :=
  match sessionId with
  | none => (s, .badRequestText "Invalid or missing session ID")
  | some sid =>
    if sid ∈ s.table then
      (if isDelete then closeSession s sid else s, .forwarded sid)
    else (s, .badRequestText "Invalid or missing session ID")

/-- A transport-closure event firing `transport.onclose` for the
transport with id `sid` (e.g. the client dropped the connection). -/
def transportClosed (s : ServerState) (sid : Nat) : ServerState := closeSession s sid

/-- The dispatcher operations a client (or the transport layer) can trigger. -/
inductive Op where
  | post (sessionId : Option Nat) (isInitReq : Bool)
  | getReq (sessionId : Option Nat)
  | deleteReq (sessionId : Option Nat)
  | closeEvt (sid : Nat)

def applyOp (s : ServerState) : Op → ServerState
  | .post sid b => (postMcp s sid b).1
  | .getReq sid => (sessionRequest s sid false).1
  | .deleteReq sid => (sessionRequest s sid true).1
  | .closeEvt sid => transportClosed s sid

/-- States reachable from the empty server by any sequence of dispatcher
operations. -/
inductive Reachable : ServerState → Prop where
  | init : Reachable initialState
  | step {s : ServerState} (op : Op) : Reachable s → Reachable (applyOp s op)

/-- The dispatcher's state invariant. -/
structure Inv (s : ServerState) : Prop where
  mem_iff : ∀ t ∈ s.sessions, (t.sid ∈ s.table ↔ t.closed = false)
  table_sub : ∀ sid ∈ s.table, ∃ t ∈ s.sessions, t.sid = sid
  sids_nodup : (s.sessions.map Session.sid).Nodup
  table_nodup : s.table.Nodup
  sessions_lt : ∀ t ∈ s.sessions, t.sid < s.nextSid

theorem inv_initial : Inv initialState := by
  refine ⟨?_, ?_, ?_, ?_, ?_⟩ <;> simp [initialState]

theorem not_mem_table_of_ge {s : ServerState} (h : Inv s) {sid : Nat}
    (hge : s.nextSid ≤ sid) : sid ∉ s.table := by
  intro hmem
  obtain ⟨t, ht, hts⟩ := h.table_sub sid hmem
  have := h.sessions_lt t ht
  omega

theorem inv_handshake {s : ServerState} (h : Inv s) : Inv (handshake s).1 := by
  refine ⟨?_, ?_, ?_, ?_, ?_⟩
  · intro t ht
    rcases List.mem_append.1 ht with hold | hnew
    · have hne : t.sid ≠ s.nextSid := by
        have := h.sessions_lt t hold
        omega
      simpa [handshake, List.mem_cons, hne] using h.mem_iff t hold
    · have : t = { sid := s.nextSid, closed := false } := by simpa using hnew
      subst this
      simp [handshake]
  · intro sid hsid
    simp only [handshake, List.mem_cons] at hsid
    rcases hsid with rfl | hmem
    · exact ⟨{ sid := s.nextSid, closed := false }, by simp [handshake], rfl⟩
    · obtain ⟨t, ht, hts⟩ := h.table_sub sid hmem
      exact ⟨t, by simp [handshake, ht], hts⟩
  · have hfresh : s.nextSid ∉ s.sessions.map Session.sid := by
      intro hmem
      rcases List.mem_map.1 hmem with ⟨t, ht, hts⟩
      have := h.sessions_lt t ht
      omega
    simp only [handshake, List.map_append, List.map_cons, List.map_nil]
    exact List.Nodup.append h.sids_nodup (List.nodup_singleton _)
      (by simpa [List.disjoint_singleton] using hfresh)
  · have : s.nextSid ∉ s.table := not_mem_table_of_ge h le_rfl
    simpa [handshake, List.nodup_cons, this] using h.table_nodup
  · intro t ht
    rcases List.mem_append.1 ht with hold | hnew
    · have := h.sessions_lt t hold
      simp only [handshake]
      omega
    · have : t = { sid := s.nextSid, closed := false } := by simpa using hnew
      subst this
      simp [handshake]

theorem closeMark_sid (sid : Nat) (t : Session) :
    (if t.sid = sid then { t with closed := true } else t).sid = t.sid := by
  split <;> rfl

theorem inv_closeSession {s : ServerState} (h : Inv s) (sid : Nat) :
    Inv (closeSession s sid) := by
  refine ⟨?_, ?_, ?_, ?_, ?_⟩
  · intro t' ht'
    rcases List.mem_map.1 ht' with ⟨t, ht, rfl⟩
    by_cases hts : t.sid = sid
    · simp only [closeSession, hts, if_pos rfl]
      constructor
      · intro hmem
        exact absurd ((h.table_nodup.mem_erase_iff.1 (hts ▸ hmem)).1) (by simp)
      · intro hfalse
        exact absurd hfalse (by simp)
    · simp only [closeSession, if_neg hts]
      rw [h.table_nodup.mem_erase_iff]
      simp only [hts, ne_eq, not_false_iff, true_and]
      exact h.mem_iff t ht
  · intro sid' hsid'
    have hmem : sid' ∈ s.table := List.mem_of_mem_erase hsid'
    obtain ⟨t, ht, hts⟩ := h.table_sub sid' hmem
    refine ⟨if t.sid = sid then { t with closed := true } else t,
      List.mem_map_of_mem _ ht, ?_⟩
    rw [closeMark_sid]
    exact hts
  · have heq : ((closeSession s sid).sessions).map Session.sid = s.sessions.map Session.sid := by
      simp only [closeSession]
      rw [List.map_map]
      exact List.map_congr_left fun t _ => closeMark_sid sid t
    rw [heq]
    exact h.sids_nodup
  · exact h.table_nodup.erase sid
  · intro t' ht'
    rcases List.mem_map.1 ht' with ⟨t, ht, rfl⟩
    have := h.sessions_lt t ht
    rw [closeMark_sid]
    exact this

theorem inv_applyOp {s : ServerState} (h : Inv s) (op : Op) : Inv (applyOp s op) := by
  cases op with
  | post sid b =>
    rcases sid with _ | sid
    · by_cases hb : b = true
      · subst hb
        exact inv_handshake h
      · simp only [applyOp, postMcp, Bool.not_eq_true] at *
        subst hb
        simpa using h
    · by_cases hmem : sid ∈ s.table <;> simp [applyOp, postMcp, hmem, h]
  | getReq sid =>
    rcases sid with _ | sid
    · simpa [applyOp, sessionRequest] using h
    · by_cases hmem : sid ∈ s.table <;> simp [applyOp, sessionRequest, hmem, h]
  | deleteReq sid =>
    rcases sid with _ | sid
    · simpa [applyOp, sessionRequest] using h
    · by_cases hmem : sid ∈ s.table <;>
        simp [applyOp, sessionRequest, hmem, h, inv_closeSession h sid]
  | closeEvt sid => exact inv_closeSession h sid

theorem reachable_inv {s : ServerState} (h : Reachable s) : Inv s := by
  induction h with
  | init => exact inv_initial
  | step op _ ih => exact inv_applyOp ih op

/-- A demonstration state: one handshake followed by an explicit DELETE
termination of the created session. -/
def demoState : ServerState :=
  applyOp (applyOp initialState (.post none true)) (.deleteReq (some 0))

/-- C1: a POST carrying no session id whose body is an initialize request
creates a fresh Session with a newly generated SessionId, registers it in
the session table, that id is unique among currently-active sessions (and
is not the id of any session ever created before), and every
immediately-subsequent request carrying it — POST with any body, GET, or
DELETE — is forwarded to that same session. -/
theorem C1_handshake_fresh_unique_accepted (s : ServerState) (h : Inv s) :
    (postMcp s none true).2 = .handshakeOk s.nextSid ∧
    s.nextSid ∉ s.table ∧
    (∀ t ∈ s.sessions, t.sid ≠ s.nextSid) ∧
    { sid := s.nextSid, closed := false } ∈ (postMcp s none true).1.sessions ∧
    s.nextSid ∈ (postMcp s none true).1.table ∧
    (∀ b, (postMcp (postMcp s none true).1 (some s.nextSid) b).2 = .forwarded s.nextSid) ∧
    (∀ d, (sessionRequest (postMcp s none true).1 (some s.nextSid) d).2 =
      .forwarded s.nextSid) := by
  have hfresh : s.nextSid ∉ s.table := not_mem_table_of_ge h le_rfl
  have hmem : s.nextSid ∈ (postMcp s none true).1.table := by
    simp [postMcp, handshake]
  refine ⟨rfl, hfresh, ?_, ?_, hmem, ?_, ?_⟩
  · intro t ht hts
    have := h.sessions_lt t ht
    omega
  · simp [postMcp, handshake]
  · intro b
    simp [postMcp, handshake]
  · intro d
    simp [sessionRequest, postMcp, handshake]

/-- Witness for C1 at the empty server. -/
theorem C1_handshake_fresh_unique_accepted_witness :
    Inv initialState ∧
    ((postMcp initialState none true).2 = .handshakeOk initialState.nextSid ∧
     initialState.nextSid ∉ initialState.table ∧
     (∀ t ∈ initialState.sessions, t.sid ≠ initialState.nextSid) ∧
     { sid := initialState.nextSid, closed := false } ∈
       (postMcp initialState none true).1.sessions ∧
     initialState.nextSid ∈ (postMcp initialState none true).1.table ∧
     (∀ b, (postMcp (postMcp initialState none true).1
       (some initialState.nextSid) b).2 = .forwarded initialState.nextSid) ∧
     (∀ d, (sessionRequest (postMcp initialState none true).1
       (some initialState.nextSid) d).2 = .forwarded initialState.nextSid)) :=
  ⟨inv_initial, C1_handshake_fresh_unique_accepted initialState inv_initial⟩

/-- C2 as stated is false: a GET (or DELETE) with an unknown session id is
rejected with the plain-text body built at part_000 line 62, not with the
fixed JSON-RPC error envelope. -/
theorem C2_counterexample :
    (sessionRequest initialState (some 0) false).2 =
      .badRequestText "Invalid or missing session ID" ∧
    (sessionRequest initialState (some 0) false).2 ≠
      .badRequestJson noSessionEnvelope := by
  refine ⟨rfl, ?_⟩
  intro hcontra
  exact Response.noConfusion hcontra

/-- C2 amended: for a request whose session id is absent or unknown and
which is not a handshake, the POST route rejects with exactly the fixed
JSON-RPC envelope, while the GET and DELETE routes reject with HTTP 400
and the plain-text body `Invalid or missing session ID`; in all three
cases the whole dispatcher state (in particular the session table) is
unchanged. -/
theorem C2_amended_reject_paths (s : ServerState) (sessionId : Option Nat)
    (hno : ∀ sid, sessionId = some sid → sid ∉ s.table) :
    postMcp s sessionId false = (s, .badRequestJson noSessionEnvelope) ∧
    sessionRequest s sessionId false =
      (s, .badRequestText "Invalid or missing session ID") ∧
    sessionRequest s sessionId true =
      (s, .badRequestText "Invalid or missing session ID") := by
  rcases sessionId with _ | sid
  · exact ⟨rfl, rfl, rfl⟩
  · have hmem := hno sid rfl
    refine ⟨?_, ?_, ?_⟩ <;> simp [postMcp, sessionRequest, hmem]

/-- Witness for the amended C2 with the unknown id 3 at the empty server. -/
theorem C2_amended_reject_paths_witness :
    (∀ sid : Nat, (some 3 : Option Nat) = some sid → sid ∉ initialState.table) ∧
    (postMcp initialState (some 3) false =
      (initialState, .badRequestJson noSessionEnvelope) ∧
     sessionRequest initialState (some 3) false =
      (initialState, .badRequestText "Invalid or missing session ID") ∧
     sessionRequest initialState (some 3) true =
      (initialState, .badRequestText "Invalid or missing session ID")) :=
  ⟨by intro sid hs; cases hs; simp [initialState],
   C2_amended_reject_paths initialState (some 3)
     (by intro sid hs; cases hs; simp [initialState])⟩

/-- C3: terminating an active session (explicit DELETE or transport
closure, both of which funnel through `closeSession`) removes it from the
session table and marks it closed; every subsequent request carrying the
same id is rejected as an invalid session and leaves the state unchanged;
a second termination with the same id is a no-op (the DELETE route
answers Bad Request without touching the state, and a second closure
event leaves the state fixed) — at-most-once removal. -/
theorem C3_terminate_idempotent (s : ServerState) (sid : Nat) (h : Inv s)
    (hm : sid ∈ s.table) :
    (sessionRequest s (some sid) true).1 = closeSession s sid ∧
    transportClosed s sid = closeSession s sid ∧
    sid ∉ (closeSession s sid).table ∧
    (∃ t ∈ (closeSession s sid).sessions, t.sid = sid ∧ t.closed = true) ∧
    (∀ b, postMcp (closeSession s sid) (some sid) b =
      (closeSession s sid, .badRequestJson noSessionEnvelope)) ∧
    (∀ d, sessionRequest (closeSession s sid) (some sid) d =
      (closeSession s sid, .badRequestText "Invalid or missing session ID")) ∧
    closeSession (closeSession s sid) sid = closeSession s sid := by
  have hnot : sid ∉ (closeSession s sid).table := by
    simp only [closeSession]
    intro hmem
    exact absurd (h.table_nodup.mem_erase_iff.1 hmem).1 (by simp)
  refine ⟨by simp [sessionRequest, hm], rfl, hnot, ?_, ?_, ?_, ?_⟩
  · obtain ⟨t, ht, hts⟩ := h.table_sub sid hm
    refine ⟨{ t with closed := true }, ?_, hts, rfl⟩
    simp only [closeSession, List.mem_map]
    exact ⟨t, ht, by rw [if_pos hts]⟩
  · intro b
    simp [postMcp, hnot]
  · intro d
    simp [sessionRequest, hnot]
  · have hnot' : sid ∉ s.table.erase sid := by simpa [closeSession] using hnot
    simp only [closeSession, List.map_map, List.erase_of_not_mem hnot']
    congr 1
    exact List.map_congr_left fun t _ => by
      by_cases hts : t.sid = sid <;> simp [Function.comp, hts]

/-- Witness for C3: terminate the session created by one handshake. -/
theorem C3_terminate_idempotent_witness :
    Inv (postMcp initialState none true).1 ∧
    0 ∈ (postMcp initialState none true).1.table ∧
    ((sessionRequest (postMcp initialState none true).1 (some 0) true).1 =
       closeSession (postMcp initialState none true).1 0 ∧
     transportClosed (postMcp initialState none true).1 0 =
       closeSession (postMcp initialState none true).1 0 ∧
     0 ∉ (closeSession (postMcp initialState none true).1 0).table ∧
     (∃ t ∈ (closeSession (postMcp initialState none true).1 0).sessions,
       t.sid = 0 ∧ t.closed = true) ∧
     (∀ b, postMcp (closeSession (postMcp initialState none true).1 0) (some 0) b =
       (closeSession (postMcp initialState none true).1 0,
        .badRequestJson noSessionEnvelope)) ∧
     (∀ d, sessionRequest (closeSession (postMcp initialState none true).1 0) (some 0) d =
       (closeSession (postMcp initialState none true).1 0,
        .badRequestText "Invalid or missing session ID")) ∧
     closeSession (closeSession (postMcp initialState none true).1 0) 0 =
       closeSession (postMcp initialState none true).1 0) :=
  ⟨inv_applyOp inv_initial (.post none true), by decide,
   C3_terminate_idempotent (postMcp initialState none true).1 0
     (inv_applyOp inv_initial (.post none true)) (by decide)⟩

/-- C4: in every state reachable by any sequence of dispatcher operations
(handshake, forward, explicit termination, transport closure), a session
is in the session table if and only if its `closed` flag is false. -/
theorem C4_table_iff_open {s : ServerState} (h : Reachable s) :
    ∀ t ∈ s.sessions, (t.sid ∈ s.table ↔ t.closed = false) :=
  (reachable_inv h).mem_iff

/-- Witness for C4 at the state reached by a handshake followed by an
explicit termination. -/
theorem C4_table_iff_open_witness :
    Reachable demoState ∧
    ∀ t ∈ demoState.sessions, (t.sid ∈ demoState.table ↔ t.closed = false) :=
  ⟨(Reachable.init.step (Op.post none true)).step (Op.deleteReq (some 0)),
   C4_table_iff_open
     ((Reachable.init.step (Op.post none true)).step (Op.deleteReq (some 0)))⟩

/-! ## Tool registry and descriptors (src/server/tools.js)

The zod input schemas of tools.js are embedded as data; the `McpServer`
registry itself is SDK code absent from src and is modelled from spec
section 4.1. -/

/-- The primitive kinds appearing in the zod input schemas of tools.js. -/
inductive FieldType where
  | str
  | num
  | arrStr
  | enumOf (options : List String)
deriving DecidableEq

/-- One named parameter of a tool's input schema: its zod type, whether
the caller must supply it, and its default value if any. -/
structure SchemaField where
  fname : String
  ftype : FieldType
  required : Bool
  defaultVal : Option String
deriving DecidableEq

/-- A `{name, description, inputSchema}` descriptor as listed to clients. -/
structure ToolDescriptor where
  name : String
  description : String
  inputSchema : List SchemaField
deriving DecidableEq

/-- Modelled from the spec: the `McpServer`/`server.tool` registry is SDK
code absent from src.  Spec section 4.1: `register` fails with
`DuplicateToolName` when the name is already present, otherwise the
descriptor is appended. -/
def register (reg : List ToolDescriptor) (d : ToolDescriptor) :
    Option (List ToolDescriptor) :=
  if reg.any fun d' => d'.name == d.name then none else some (reg ++ [d])

/-- Register a sequence of tools in order, as `registerTools` does. -/
def registerAll (reg : List ToolDescriptor) :
    List ToolDescriptor → Option (List ToolDescriptor)
  | [] => some reg
  | d :: ds =>
    match register reg d with
    | none => none
    | some reg' => registerAll reg' ds

/-- Spec section 4.1: `list` returns the registered descriptors in
registration order; it reads the registry and has no side effects. -/
def listTools (reg : List ToolDescriptor) : List ToolDescriptor := reg

def printMenuTool : ToolDescriptor :=
  { name := "print-menu"
    description := "Prints what can the MCP server do with the available tools, gives description of tools (apart from printing this menu)"
    inputSchema := [
      { fname := "title", ftype := .str, required := false, defaultVal := none },
      { fname := "items", ftype := .arrStr, required := true, defaultVal := none }] }

def newsByTopicTool : ToolDescriptor :=
  { name := "news-by-topic"
    description := "Fetches recent news headlines for a given topic using Google News"
    inputSchema := [
      { fname := "topic", ftype := .str, required := true, defaultVal := none }] }

def adderTool : ToolDescriptor :=
  { name := "adder"
    description := "Add two numbers together"
    inputSchema := [
      { fname := "a", ftype := .num, required := true, defaultVal := none },
      { fname := "b", ftype := .num, required := true, defaultVal := none }] }

def twitterXPostTool : ToolDescriptor :=
  { name := "twitter-X-post"
    description := "Create and post a tweet on X formally known as Twitter"
    inputSchema := [
      { fname := "status", ftype := .str, required := true, defaultVal := none }] }

def wikipediaSearchTool : ToolDescriptor :=
  { name := "wikipedia-search"
    description := "Search Wikipedia and return the summary of the top result"
    inputSchema := [
      { fname := "query", ftype := .str, required := true, defaultVal := none }] }

def githubRepoInfoTool : ToolDescriptor :=
  { name := "github-repo-info"
    description := "Fetch information about a public GitHub repository"
    inputSchema := [
      { fname := "owner", ftype := .str, required := true, defaultVal := none },
      { fname := "repo", ftype := .str, required := true, defaultVal := none }] }

def movieRatingsTool : ToolDescriptor :=
  { name := "movie-ratings"
    description := "Get ratings and information for movies or TV shows from various sources"
    inputSchema := [
      { fname := "title", ftype := .str, required := true, defaultVal := none },
      { fname := "year", ftype := .num, required := false, defaultVal := none },
      { fname := "plot", ftype := .enumOf ["short", "full"], required := false,
        defaultVal := some "short" }] }

def localFileSearchTool : ToolDescriptor :=
  { name := "local-file-search"
    description := "Find files on the local system based on name/extension/content"
    inputSchema := [
      { fname := "searchTerm", ftype := .str, required := true, defaultVal := none },
      { fname := "directory", ftype := .str, required := false, defaultVal := some "./" },
      { fname := "fileType", ftype := .enumOf ["all", "name", "extension", "content"],
        required := false, defaultVal := some "all" }] }

def truthTableTool : ToolDescriptor :=
  { name := "truth_table"
    description := "Generate the truth table of a boolean expression (e.g., A && !B || C)"
    inputSchema := [
      { fname := "expression", ftype := .str, required := true, defaultVal := none }] }

def defineWordTool : ToolDescriptor :=
  { name := "define_word"
    description := "Get the definition and example usage of a word"
    inputSchema := [
      { fname := "word", ftype := .str, required := true, defaultVal := none }] }

/-- The registration sequence performed by `registerTools` (tools.js
lines 27-631), in source order. -/
def toolsJsRegistrations : List ToolDescriptor :=
  [printMenuTool, newsByTopicTool, adderTool, twitterXPostTool, wikipediaSearchTool,
   githubRepoInfoTool, movieRatingsTool, localFileSearchTool, truthTableTool,
   defineWordTool]

/-- `registerTools(server)` applied to a fresh server. -/
def registerToolsJs : Option (List ToolDescriptor) :=
  registerAll [] toolsJsRegistrations

theorem registerAll_eq_append (ds : List ToolDescriptor) :
    ∀ reg : List ToolDescriptor,
      (ds.map ToolDescriptor.name).Nodup →
      (∀ d ∈ ds, ∀ d' ∈ reg, d'.name ≠ d.name) →
      registerAll reg ds = some (reg ++ ds) := by
  induction ds with
  | nil => intro reg _ _; simp [registerAll]
  | cons d ds ih =>
    intro reg hnodup hdisj
    have hany : (reg.any fun d' => d'.name == d.name) = false := by
      rw [List.any_eq_false]
      intro d' hd'
      simpa using hdisj d (by simp) d' hd'
    have hnodup' : (ds.map ToolDescriptor.name).Nodup :=
      (List.nodup_cons.1 (by simpa using hnodup)).2
    have hhead : d.name ∉ ds.map ToolDescriptor.name :=
      (List.nodup_cons.1 (by simpa using hnodup)).1
    have hdisj' : ∀ e ∈ ds, ∀ d' ∈ reg ++ [d], d'.name ≠ e.name := by
      intro e he d' hd'
      rcases List.mem_append.1 hd' with hin | hone
      · exact hdisj e (by simp [he]) d' hin
      · have : d' = d := by simpa using hone
        subst this
        intro hcontra
        exact hhead (hcontra ▸ List.mem_map_of_mem ToolDescriptor.name he)
    calc registerAll reg (d :: ds)
        = registerAll (reg ++ [d]) ds := by
          simp [registerAll, register, hany]
      _ = some ((reg ++ [d]) ++ ds) := ih (reg ++ [d]) hnodup' hdisj'
      _ = some (reg ++ d :: ds) := by simp

/-- C6: registering N tools with pairwise-distinct names succeeds, and a
tool-list query returns exactly those N descriptors — each equal to its
registration — in registration order; `listTools` is a pure function of
the registry, so every call returns the same ordered sequence. -/
theorem C6_register_list_roundtrip (ds : List ToolDescriptor)
    (h : (ds.map ToolDescriptor.name).Nodup) :
    registerAll [] ds = some (listTools ds) ∧ listTools ds = ds ∧
    (listTools ds).length = ds.length := by
  refine ⟨?_, rfl, rfl⟩
  simpa [listTools] using registerAll_eq_append ds [] h (by simp)

/-- Witness for C6: the ten registrations of tools.js have distinct names
and round-trip through the registry. -/
theorem C6_register_list_roundtrip_witness :
    (toolsJsRegistrations.map ToolDescriptor.name).Nodup ∧
    (registerAll [] toolsJsRegistrations = some (listTools toolsJsRegistrations) ∧
     listTools toolsJsRegistrations = toolsJsRegistrations ∧
     (listTools toolsJsRegistrations).length = toolsJsRegistrations.length) :=
  ⟨by decide, C6_register_list_roundtrip toolsJsRegistrations (by decide)⟩

/-! ## Tool results, the adder, and failure containment -/

/-- ANSI formatting constants of the `FORMAT` object (tools.js lines 29-35). -/
def FORMAT_RESET : String := "\x1b[0m"

def FORMAT_BOLD : String := "\x1b[1m"

def FORMAT_GREEN : String := "\x1b[32m"

def FORMAT_CYAN : String := "\x1b[36m"

/-- One `{type: 'text', text: ...}` content block. -/
structure ContentBlock where
  type : String
  text : String
deriving DecidableEq

/-- A tool result: `{content: [...]}`. -/
structure ToolResult where
  content : List ContentBlock
deriving DecidableEq

/-- `first starts with second`, character-wise. -/
def startsWithChars : List Char → List Char → Bool
  | _, [] => true
  | [], _ :: _ => false
  | a :: as, b :: bs => a == b && startsWithChars as bs

/-- JS `String.prototype.includes` on char lists. -/
def hasSub : List Char → List Char → Bool
  | [], pat => pat.isEmpty
  | a :: hay, pat => startsWithChars (a :: hay) pat || hasSub hay pat

/-- `pat` occurs as a contiguous substring of `s`. -/
def strContains (s pat : String) : Bool := hasSub s.data pat.data

theorem startsWithChars_self : ∀ l : List Char, startsWithChars l l = true
  | [] => rfl
  | a :: as => by simp [startsWithChars, startsWithChars_self as]

theorem hasSub_append : ∀ xs ys : List Char, hasSub (xs ++ ys) ys = true := by
  intro xs
  induction xs with
  | nil =>
    intro ys
    cases ys with
    | nil => rfl
    | cons a as => simp [hasSub, startsWithChars_self]
  | cons x xs ih =>
    intro ys
    simp [hasSub, ih ys]

theorem strContains_append (s t : String) : strContains (s ++ t) t = true := by
  simp only [strContains, String.data_append]
  exact hasSub_append s.data t.data

/-- The `adder` handler (tools.js lines 138-152; identically
tools-basic.js lines 30-44), taken at integer inputs. -/
def adderHandler (a b : Int) : ToolResult :=
  { content := [
      { type := "text"
        text := FORMAT_GREEN ++ "Result:" ++ FORMAT_RESET ++ " The sum of " ++
          FORMAT_BOLD ++ toString a ++ FORMAT_RESET ++ " and " ++ FORMAT_BOLD ++
          toString b ++ FORMAT_RESET ++ " is " ++ FORMAT_CYAN ++
          toString (a + b) ++ FORMAT_RESET ++ ".\n" }] }

/-- C7: invoking the registered tool `adder` with a=2 and b=3 returns a
result whose content is a single text block whose text contains "5". -/
theorem C7_adder_two_three_contains_five :
    (adderHandler 2 3).content.map ContentBlock.type = ["text"] ∧
    (adderHandler 2 3).content.map (fun blk => strContains blk.text "5") = [true] := by
  constructor
  · rfl
  · decide

/-- Outcome of running a tool handler: a result, or a thrown error /
rejected promise carrying `err.message`. -/
inductive HandlerOutcome where
  | ok (r : ToolResult)
  | threw (msg : String)
deriving DecidableEq

/-- Modelled from the spec: the SDK tool-call dispatch boundary is absent
from src.  Spec section 4.3 step 5: on handler failure, capture the
failure's message and return a single text content block describing it;
tool-level errors never propagate as protocol-level errors and never
close the session, so the session value is returned untouched. -/
def dispatchToolCall (sess : Session) (out : HandlerOutcome) :
    Session × ToolResult :=
  match out with
  | .ok r => (sess, r)
  | .threw msg =>
    (sess, { content := [{ type := "text", text := "Error: " ++ msg }] })

/-- `createPost` (src/unnamed/part_002 lines 13-39): the Twitter API call
either resolves with a tweet id or rejects with an error message; either
way a single text block is produced. -/
def createPost (tweet : Except String String) : ToolResult :=
  match tweet with
  | .ok tweetId =>
    { content := [{ type := "text", text := "Tweet sent successfully: " ++ tweetId }] }
  | .error msg =>
    { content := [{ type := "text", text := "Error sending tweet: " ++ msg }] }

/-- The `twitter-X-post` handler (tools.js lines 162-188): `res` is the
outcome of `await createPost(status)`; a rejection is caught by the
handler's own try/catch and surfaced as a single text block carrying
`err.message`. -/
def twitterXPostHandler (res : Except String ToolResult) : ToolResult :=
  match res with
  | .ok result =>
    { content := [
        { type := "text"
          text := FORMAT_GREEN ++ FORMAT_BOLD ++ "Tweet created successfully:" ++
            FORMAT_RESET ++ " " ++
            ((result.content.map ContentBlock.text).headD "") ++ "\n" }] }
  | .error emsg =>
    { content := [{ type := "text", text := "⚠️ Error creating tweet: " ++ emsg }] }

/-- C5: when a tool handler fails, the failure's message is captured at
the dispatch boundary and returned as a single text content block
containing that message; the session comes back unchanged (never closed),
and a subsequent invocation of a different tool (here `adder`) in the
same session returns that tool's normal result.  The `twitter-X-post`
handler likewise turns a rejected external call into a single text block
containing the rejection's message. -/
theorem C5_handler_failure_contained (sess : Session) (out : HandlerOutcome)
    (msg : String) (hthrow : out = .threw msg) :
    (dispatchToolCall sess out).1 = sess ∧
    (dispatchToolCall sess out).2.content.map ContentBlock.type = ["text"] ∧
    (dispatchToolCall sess out).2.content.map
      (fun blk => strContains blk.text msg) = [true] ∧
    (∀ emsg, (twitterXPostHandler (.error emsg)).content.map
      (fun blk => strContains blk.text emsg) = [true]) ∧
    (∀ a b, dispatchToolCall sess (.ok (adderHandler a b)) =
      (sess, adderHandler a b)) := by
  subst hthrow
  refine ⟨rfl, rfl, ?_, ?_, fun a b => rfl⟩
  · simp [dispatchToolCall, strContains_append]
  · intro emsg
    simp [twitterXPostHandler, strContains_append]

/-- Witness for C5: a handler throwing `Error("boom")` in an open session. -/
theorem C5_handler_failure_contained_witness :
    (HandlerOutcome.threw "boom" = HandlerOutcome.threw "boom") ∧
    ((dispatchToolCall { sid := 0, closed := false } (.threw "boom")).1 =
       { sid := 0, closed := false } ∧
     (dispatchToolCall { sid := 0, closed := false }
       (.threw "boom")).2.content.map ContentBlock.type = ["text"] ∧
     (dispatchToolCall { sid := 0, closed := false }
       (.threw "boom")).2.content.map
         (fun blk => strContains blk.text "boom") = [true] ∧
     (∀ emsg, (twitterXPostHandler (.error emsg)).content.map
       (fun blk => strContains blk.text emsg) = [true]) ∧
     (∀ a b, dispatchToolCall { sid := 0, closed := false }
       (.ok (adderHandler a b)) =
       ({ sid := 0, closed := false }, adderHandler a b))) :=
  ⟨rfl, C5_handler_failure_contained { sid := 0, closed := false }
    (.threw "boom") "boom" rfl⟩

/-! ## Local file search (tools.js lines 368-534)

The handler walks a directory tree with `scanDirectory`, pushing matches
onto a shared `results` array and breaking out of the current `for` loop
once `results.length >= 20`. -/

/-- A model file-system entry. -/
inductive FSNode where
  | file (name : String) (content : String) (size : Nat) (mtimeMs : Nat)
  | dir (name : String) (entries : List FSNode)

/-- One entry of the `results` array (tools.js lines 458-463); `path` is
the root-relative component list built by `path.join(dir, file.name)`. -/
structure FoundFile where
  name : String
  path : List String
  size : Nat
  mtimeMs : Nat
deriving DecidableEq

/-- The mutable state shared by all recursive `scanDirectory` calls:
`results`, `scannedFiles`, `matchedFiles` (tools.js lines 402-404). -/
structure ScanState where
  results : List FoundFile
  scannedFiles : Nat
  matchedFiles : Nat
deriving DecidableEq

/-- The `fileType` argument: 'all' | 'name' | 'extension' | 'content'. -/
inductive SearchKind where
  | all
  | byName
  | byExtension
  | byContent
deriving DecidableEq

/-- `path.extname`: the suffix starting at the final dot, empty when the
dot is absent or is the leading character (so '.env' has no extension). -/
def extname (name : String) : String :=
  let parts := name.splitOn "."
  if 2 ≤ parts.length then
    if parts.length = 2 ∧ parts.head? = some "" then "" else "." ++ parts.getLastD ""
  else ""

def textExtensions : List String :=
  [".txt", ".js", ".json", ".html", ".css", ".md", ".csv", ".xml", ".log"]

def toLowerStr (s : String) : String := s.map Char.toLower

/-- The per-file match logic of tools.js lines 418-447: name match, then
extension match, then content match for known text extensions. -/
def isMatchFile (kind : SearchKind) (term fname fcontent : String) : Bool :=
  let fileExtension := toLowerStr (extname fname)
  let nameMatch := (kind == .all || kind == .byName) &&
    strContains (toLowerStr fname) (toLowerStr term)
  if nameMatch then true
  else
    let extWithoutDot := fileExtension.drop 1
    let extMatch := (kind == .all || kind == .byExtension) &&
      (extWithoutDot == toLowerStr term || fileExtension == toLowerStr term)
    if extMatch then true
    else (kind == .all || kind == .byContent) &&
      textExtensions.contains fileExtension &&
      strContains (toLowerStr fcontent) (toLowerStr term)

mutual

/-- One iteration body of the `for (const file of files)` loop (tools.js
lines 409-465): recurse into directories other than `node_modules` and
`.git`, or scan a file and append it to `results` when it matches. -/
def scanNode (kind : SearchKind) (term : String) (pre : List String)
    (e : FSNode) (st : ScanState) : ScanState :=
  match e with
  | .dir n sub =>
    if n != "node_modules" && n != ".git" then
      scanList kind term (pre ++ [n]) sub st
    else st
  | .file n c sz mt =>
    let st1 := { st with scannedFiles := st.scannedFiles + 1 }
    if isMatchFile kind term n c then
      { st1 with
        matchedFiles := st1.matchedFiles + 1
        results := st1.results ++
          [{ name := n, path := pre ++ [n], size := sz, mtimeMs := mt }] }
    else st1

/-- `scanDirectory` (tools.js lines 406-470): process the entries in
order; after each iteration, `if (results.length >= 20) break` leaves
this loop. -/
def scanList (kind : SearchKind) (term : String) (pre : List String)
    (es : List FSNode) (st : ScanState) : ScanState :=
  match es with
  | [] => st
  | e :: rest =>
    let st' := scanNode kind term pre e st
    if 20 ≤ st'.results.length then st'
    else scanList kind term pre rest st'

end

/-- The whole search over a root directory whose entries are `fs`
(tools.js line 474: `await scanDirectory(directory)`). -/
def runSearch (kind : SearchKind) (term : String) (fs : List FSNode) : ScanState :=
  scanList kind term [] fs { results := [], scannedFiles := 0, matchedFiles := 0 }

/-- Every loop level re-checks `results.length >= 20` after each of its
iterations, so a scan entered with at most 19 accumulated results
finishes with at most 20. -/
theorem scanList_cap (kind : SearchKind) (term : String) (pre : List String)
    (es : List FSNode) : ∀ st : ScanState, st.results.length ≤ 19 →
    (scanList kind term pre es st).results.length ≤ 20 := by
  match es with
  | [] =>
    intro st h
    simp only [scanList]
    omega
  | .file n c sz mt :: rest =>
    intro st h
    simp only [scanList, scanNode]
    by_cases hm : isMatchFile kind term n c = true
    · simp only [if_pos hm]
      split
      · simp only [List.length_append, List.length_cons, List.length_nil]
        omega
      · next hc =>
        refine scanList_cap kind term pre rest _ ?_
        simp only [List.length_append, List.length_cons, List.length_nil] at hc ⊢
        omega
    · simp only [if_neg hm]
      split
      · omega
      · next hc => exact scanList_cap kind term pre rest _ h
  | .dir n sub :: rest =>
    intro st h
    simp only [scanList, scanNode]
    by_cases hn : (n != "node_modules" && n != ".git") = true
    · simp only [if_pos hn]
      split
      · exact scanList_cap kind term (pre ++ [n]) sub st h
      · next hc => exact scanList_cap kind term pre rest _ (by omega)
    · simp only [if_neg hn]
      split
      · omega
      · next hc => exact scanList_cap kind term pre rest st h
termination_by (sizeOf es)

/-- Remove every subdirectory named `node_modules` or `.git`, recursively. -/
def pruneList : List FSNode → List FSNode
  | [] => []
  | .dir n sub :: rest =>
    if n != "node_modules" && n != ".git" then
      .dir n (pruneList sub) :: pruneList rest
    else pruneList rest
  | .file n c sz mt :: rest => .file n c sz mt :: pruneList rest

/-- Scanning a tree is indistinguishable from scanning its pruned
version: the skipped directories contribute nothing to the state. -/
theorem scanList_prune (kind : SearchKind) (term : String) (pre : List String)
    (es : List FSNode) : ∀ st : ScanState, st.results.length < 20 →
    scanList kind term pre (pruneList es) st = scanList kind term pre es st := by
  match es with
  | [] =>
    intro st h
    simp only [pruneList]
  | .file n c sz mt :: rest =>
    intro st h
    simp only [pruneList, scanList, scanNode]
    by_cases hm : isMatchFile kind term n c = true
    · simp only [if_pos hm]
      split
      · rfl
      · next hc =>
        exact scanList_prune kind term pre rest _
          (by simpa using Nat.lt_of_not_le hc)
    · simp only [if_neg hm]
      split
      · rfl
      · next hc => exact scanList_prune kind term pre rest _ (Nat.lt_of_not_le hc)
  | .dir n sub :: rest =>
    intro st h
    by_cases hn : (n != "node_modules" && n != ".git") = true
    · simp only [pruneList, if_pos hn, scanList, scanNode]
      rw [scanList_prune kind term (pre ++ [n]) sub st h]
      split
      · rfl
      · next hc => exact scanList_prune kind term pre rest _ (Nat.lt_of_not_le hc)
    · simp only [pruneList, if_neg hn, scanList, scanNode]
      rw [if_neg (show ¬ 20 ≤ st.results.length by omega)]
      exact scanList_prune kind term pre rest st h
termination_by (sizeOf es)

/-- Every result accumulated under a prefix free of excluded directory
names has a path whose directory components avoid those names. -/
theorem scanList_paths (kind : SearchKind) (term : String) (pre : List String)
    (es : List FSNode) : ∀ st : ScanState,
    (∀ c ∈ pre, c ≠ "node_modules" ∧ c ≠ ".git") →
    (∀ r ∈ st.results, ∀ c ∈ r.path.dropLast, c ≠ "node_modules" ∧ c ≠ ".git") →
    ∀ r ∈ (scanList kind term pre es st).results, ∀ c ∈ r.path.dropLast,
      c ≠ "node_modules" ∧ c ≠ ".git" := by
  match es with
  | [] =>
    intro st hpre hst
    simpa [scanList] using hst
  | .file n c0 sz mt :: rest =>
    intro st hpre hst
    simp only [scanList, scanNode]
    by_cases hm : isMatchFile kind term n c0 = true
    · simp only [if_pos hm]
      have hst' : ∀ r ∈ st.results ++
          [{ name := n, path := pre ++ [n], size := sz, mtimeMs := mt : FoundFile }],
          ∀ c ∈ r.path.dropLast, c ≠ "node_modules" ∧ c ≠ ".git" := by
        intro r hr
        rcases List.mem_append.1 hr with h1 | h2
        · exact hst r h1
        · have hre : r = { name := n, path := pre ++ [n], size := sz, mtimeMs := mt } := by
            simpa using h2
          subst hre
          intro c hc
          simp only [List.dropLast_concat] at hc
          exact hpre c hc
      split
      · exact hst'
      · next hc => exact scanList_paths kind term pre rest _ hpre hst'
    · simp only [if_neg hm]
      split
      · exact hst
      · next hc => exact scanList_paths kind term pre rest _ hpre hst
  | .dir n sub :: rest =>
    intro st hpre hst
    by_cases hn : (n != "node_modules" && n != ".git") = true
    · simp only [scanList, scanNode, if_pos hn]
      have hn' : n ≠ "node_modules" ∧ n ≠ ".git" := by
        rw [Bool.and_eq_true, bne_iff_ne, bne_iff_ne] at hn
        exact hn
      have hpre' : ∀ c ∈ pre ++ [n], c ≠ "node_modules" ∧ c ≠ ".git" := by
        intro c hc
        rcases List.mem_append.1 hc with h1 | h2
        · exact hpre c h1
        · have : c = n := by simpa using h2
          subst this
          exact hn'
      have hsub := scanList_paths kind term (pre ++ [n]) sub st hpre' hst
      split
      · exact hsub
      · next hc => exact scanList_paths kind term pre rest _ hpre hsub
    · simp only [scanList, scanNode, if_neg hn]
      split
      · exact hst
      · next hc => exact scanList_paths kind term pre rest st hpre hst
termination_by (sizeOf es)

/-- C8 as stated is false: no directory tree and no search input can make
the returned results list exceed 20 entries, because although the break
at tools.js lines 466-468 exits only the innermost loop, every enclosing
loop runs the same length check after its recursive-call iteration. -/
theorem C8_counterexample :
    ¬ ∃ (kind : SearchKind) (term : String) (fs : List FSNode),
      20 < (runSearch kind term fs).results.length := by
  rintro ⟨kind, term, fs, hgt⟩
  have hle := scanList_cap kind term [] fs
    { results := [], scannedFiles := 0, matchedFiles := 0 } (by simp)
  simp only [runSearch] at hgt
  omega

/-- C8 amended: the stop-after-20 check breaks out of only the innermost
directory loop syntactically, but since every enclosing loop repeats the
check after the iteration containing its recursive call, the total
across recursive calls is capped: for every directory tree and search
input the returned results list has at most 20 entries. -/
theorem C8_amended_cap_twenty (kind : SearchKind) (term : String)
    (fs : List FSNode) : (runSearch kind term fs).results.length ≤ 20 :=
  scanList_cap kind term [] fs _ (by simp)

/-- C9: the search never descends into a subdirectory named
`node_modules` or `.git`: scanning any tree yields literally the same
final state (results, scannedFiles, matchedFiles) as scanning the tree
with every such subtree removed, and no returned result's path passes
through such a directory. -/
theorem C9_excluded_dirs_never_scanned (kind : SearchKind) (term : String)
    (fs : List FSNode) :
    runSearch kind term (pruneList fs) = runSearch kind term fs ∧
    ∀ r ∈ (runSearch kind term fs).results, ∀ c ∈ r.path.dropLast,
      c ≠ "node_modules" ∧ c ≠ ".git" := by
  constructor
  · exact scanList_prune kind term [] fs _ (by simp)
  · exact scanList_paths kind term [] fs _ (by simp) (by simp)

/-! ## Truth table generator (tools.js lines 537-600) -/

/-- JS word characters, the `\w` class: letters, digits, underscore. -/
def isWordChar (c : Char) : Bool := c.isAlphanum || c == '_'

/-- The matches of `expr.match(/\b[A-Z]\b/g)` in order: uppercase
letters neither preceded nor followed by a word character.  `left` is
the character before the current one, if any. -/
def isolatedUppers (left : Option Char) : List Char → List Char
  | [] => []
  | c :: rest =>
    let leftOk := match left with
      | none => true
      | some l => !isWordChar l
    let rightOk := match rest with
      | [] => true
      | r :: _ => !isWordChar r
    if c.isUpper && leftOk && rightOk then
      c :: isolatedUppers (some c) rest
    else
      isolatedUppers (some c) rest

/-- `[...new Set(matches)]`: deduplicate keeping first occurrences. -/
def dedupKeepFirst (seen : List Char) : List Char → List Char
  | [] => []
  | c :: rest =>
    if c ∈ seen then dedupKeepFirst seen rest
    else c :: dedupKeepFirst (c :: seen) rest

/-- `extractVariables` (tools.js lines 544-547):
`[...new Set(expr.match(/\b[A-Z]\b/g))].sort()` — the default JS sort on
single-character strings is code-unit order. -/
def extractVariables (expr : String) : List Char :=
  List.insertionSort (· ≤ ·) (dedupKeepFirst [] (isolatedUppers none expr.data))

/-- `generateCombinations` (tools.js lines 549-560): row `i` (for `i`
from 0 to `2^n - 1`) assigns to the j-th variable the bit
`(i >> (n - j - 1)) & 1`, so the first variable is the most significant
bit. -/
def generateCombinations (vars : List Char) : List (List (Char × Bool)) :=
  (List.range (2 ^ vars.length)).map fun i =>
    vars.mapIdx fun j v => (v, ((i >>> (vars.length - j - 1)) &&& 1) == 1)

/-- Read a row's boolean column, most significant bit first, as a number. -/
def bitsToNat (bs : List Bool) : Nat :=
  bs.foldl (fun acc b => 2 * acc + (if b then 1 else 0)) 0

def rowToNat (row : List (Char × Bool)) : Nat := bitsToNat (row.map Prod.snd)

theorem dedupKeepFirst_mem (c : Char) : ∀ (l seen : List Char),
    (c ∈ dedupKeepFirst seen l ↔ c ∈ l ∧ c ∉ seen) := by
  intro l
  induction l with
  | nil => intro seen; simp [dedupKeepFirst]
  | cons a rest ih =>
    intro seen
    by_cases ha : a ∈ seen
    · rw [show dedupKeepFirst seen (a :: rest) = dedupKeepFirst seen rest by
        simp [dedupKeepFirst, ha]]
      rw [ih seen]
      constructor
      · rintro ⟨hc, hs⟩
        exact ⟨List.mem_cons_of_mem a hc, hs⟩
      · rintro ⟨hc, hs⟩
        rcases List.mem_cons.1 hc with rfl | hc'
        · exact absurd ha hs
        · exact ⟨hc', hs⟩
    · rw [show dedupKeepFirst seen (a :: rest) = a :: dedupKeepFirst (a :: seen) rest by
        simp [dedupKeepFirst, ha]]
      rw [List.mem_cons, ih (a :: seen)]
      constructor
      · rintro (hca | ⟨hc, hs⟩)
        · exact ⟨List.mem_cons.2 (Or.inl hca), fun hmem => ha (hca ▸ hmem)⟩
        · refine ⟨List.mem_cons_of_mem a hc, fun hmem => hs (List.mem_cons_of_mem a hmem)⟩
      · rintro ⟨hc, hs⟩
        rcases List.mem_cons.1 hc with rfl | hc'
        · exact Or.inl rfl
        · by_cases hca : c = a
          · exact Or.inl hca
          · exact Or.inr ⟨hc', by simp [List.mem_cons, hca, hs]⟩

theorem dedupKeepFirst_nodup : ∀ (l seen : List Char),
    (dedupKeepFirst seen l).Nodup := by
  intro l
  induction l with
  | nil => intro seen; simp [dedupKeepFirst]
  | cons a rest ih =>
    intro seen
    by_cases ha : a ∈ seen
    · rw [show dedupKeepFirst seen (a :: rest) = dedupKeepFirst seen rest by
        simp [dedupKeepFirst, ha]]
      exact ih seen
    · rw [show dedupKeepFirst seen (a :: rest) = a :: dedupKeepFirst (a :: seen) rest by
        simp [dedupKeepFirst, ha]]
      rw [List.nodup_cons]
      refine ⟨fun hmem => ?_, ih (a :: seen)⟩
      exact ((dedupKeepFirst_mem a rest (a :: seen)).1 hmem).2 (List.mem_cons_self a seen)

theorem bitsToNat_concat (bs : List Bool) (b : Bool) :
    bitsToNat (bs ++ [b]) = 2 * bitsToNat bs + (if b then 1 else 0) := by
  simp [bitsToNat, List.foldl_append]

/-- Folding the bits of `i`, most significant first, reconstructs `i`. -/
theorem bitsToNat_msb : ∀ (n i : Nat), i < 2 ^ n →
    bitsToNat ((List.range n).map fun j => ((i >>> (n - j - 1)) &&& 1) == 1) = i := by
  intro n
  induction n with
  | zero =>
    intro i hi
    have : i = 0 := by simpa using Nat.lt_one_iff.1 (by simpa using hi)
    subst this
    rfl
  | succ n ih =>
    intro i hi
    rw [List.range_succ, List.map_append]
    have hhead : (List.range n).map (fun j => ((i >>> (n + 1 - j - 1)) &&& 1) == 1) =
        (List.range n).map fun j => (((i / 2) >>> (n - j - 1)) &&& 1) == 1 := by
      refine List.map_congr_left fun j hj => ?_
      have hj' := List.mem_range.1 hj
      have hk : n + 1 - j - 1 = 1 + (n - j - 1) := by omega
      rw [hk, Nat.shiftRight_add, Nat.shiftRight_one]
    have htail : [n].map (fun j => ((i >>> (n + 1 - j - 1)) &&& 1) == 1) =
        [((i &&& 1) == 1)] := by
      simp [show n + 1 - n - 1 = 0 by omega]
    rw [hhead, htail, bitsToNat_concat]
    have hdiv : i / 2 < 2 ^ n := by
      have hp : (2 : Nat) ^ (n + 1) = 2 ^ n * 2 := by rw [Nat.pow_succ]
      omega
    rw [ih (i / 2) hdiv]
    have hmod : (if (i &&& 1) == 1 then 1 else 0) = i % 2 := by
      rw [Nat.and_one_is_mod]
      rcases Nat.mod_two_eq_zero_or_one i with hm | hm <;> simp [hm]
    rw [hmod]
    omega

/-- The boolean column of a `mapIdx`-built row is the index-wise map. -/
theorem mapIdx_snd (vars : List Char) (g : Nat → Bool) :
    ((vars.mapIdx fun j v => (v, g j)).map Prod.snd) =
      (List.range vars.length).map g := by
  rw [List.mapIdx_eq_enum_map, List.map_map, List.enum_eq_zip_range]
  have h1 : (Prod.snd ∘ Function.uncurry fun j (v : Char) => (v, g j)) =
      fun p : Nat × Char => g p.1 := by
    funext p
    rfl
  rw [h1]
  have h2 : (((List.range vars.length).zip vars).map fun p : Nat × Char => g p.1) =
      (((List.range vars.length).zip vars).map Prod.fst).map g := by
    rw [List.map_map]
    rfl
  rw [h2, List.map_fst_zip _ _ (by simp)]

/-- The rows, read with the first variable as most significant bit,
count 0, 1, ..., 2^n - 1. -/
theorem generateCombinations_rowToNat (vars : List Char) :
    (generateCombinations vars).map rowToNat = List.range (2 ^ vars.length) := by
  unfold generateCombinations
  rw [List.map_map]
  have h : ∀ i ∈ List.range (2 ^ vars.length),
      (rowToNat ∘ fun i => vars.mapIdx fun j v =>
        (v, ((i >>> (vars.length - j - 1)) &&& 1) == 1)) i = id i := by
    intro i hi
    have hi' := List.mem_range.1 hi
    show rowToNat (vars.mapIdx fun j v => (v, ((i >>> (vars.length - j - 1)) &&& 1) == 1)) = i
    rw [rowToNat, mapIdx_snd vars fun j => ((i >>> (vars.length - j - 1)) &&& 1) == 1]
    exact bitsToNat_msb vars.length i hi'
  rw [List.map_congr_left h, List.map_id]

/-- C10: for every expression string, the extracted variables are the
isolated single uppercase letters with duplicates removed, sorted
ascending alphabetically; the generated table has exactly `2 ^ n` rows;
and the rows, read with the first (alphabetically least) variable as the
most significant bit, are in ascending binary order 0 .. 2^n - 1. -/
theorem C10_truth_table_enumeration (expr : String) :
    (extractVariables expr).Nodup ∧
    List.Sorted (· ≤ ·) (extractVariables expr) ∧
    (∀ c, c ∈ extractVariables expr ↔ c ∈ isolatedUppers none expr.data) ∧
    (generateCombinations (extractVariables expr)).length =
      2 ^ (extractVariables expr).length ∧
    (generateCombinations (extractVariables expr)).map rowToNat =
      List.range (2 ^ (extractVariables expr).length) := by
  have hperm := List.perm_insertionSort (· ≤ ·)
    (dedupKeepFirst [] (isolatedUppers none expr.data))
  refine ⟨?_, ?_, ?_, ?_, ?_⟩
  · exact hperm.nodup_iff.2 (dedupKeepFirst_nodup (isolatedUppers none expr.data) [])
  · exact List.sorted_insertionSort (· ≤ ·) _
  · intro c
    rw [show extractVariables expr =
      List.insertionSort (· ≤ ·) (dedupKeepFirst [] (isolatedUppers none expr.data)) from rfl]
    rw [hperm.mem_iff, dedupKeepFirst_mem]
    simp
  · simp [generateCombinations]
  · exact generateCombinations_rowToNat _

end MCP
